import Mathlib

/-!
# Tiled convolution: halo geometry and tile scheduling

A shallow embedding of `samples/tiled-convolution/tiled-convolution.cpp`:

* `compute_index`, the per-dimension halo planner, as a function from its four
  `const int` arguments and the previous content of its three reference
  parameters to their content on return;
* the double loop of `main`, as a list of the tiles it visits, each with the
  loop variables and the values handed to `copy_rectangular` and `tiled_cov`.

The C++ operator `/` truncates towards zero and is rendered by `Int.tdiv`.

C++ `int` values are rendered in two ways.  `compute_index` and the loops
compute over `Int` without a bound.  `compute_index_int`, `slot_int` and
`slot_count_int` reduce the result of every `int` operation to 32 bits in two's
complement, which is what the compiled program computes where the C++ standard
leaves signed overflow undefined.  The predicate `no_overflow` says that the
arguments of a call of `compute_index` and every intermediate result that the
call evaluates lie in the range of `int`; under it the two renderings agree
(`compute_index_int_eq`).
-/

namespace TiledConvolution

/-! ## Data model -/

/-- Modelled from the spec: the type `matrix_size_t` is declared in `common.hpp`,
which is not part of the sources at hand; the spec describes it as a pair of
integer dimensions (`Extent2D`), and `main` reads its fields `m` (rows) and
`n` (columns). -/
structure matrix_size_t where
  m : Int
  n : Int
deriving DecidableEq

/-- The three reference parameters of `compute_index`
(`range_src_dim`, `offset_src_dim`, `clamp_edge_dim`). -/
structure IndexOut where
  range_src_dim : Int
  offset_src_dim : Int
  clamp_edge_dim : Bool
deriving DecidableEq

/-! ## The halo planner -/

/-- The function `compute_index` of the source (lines 34-61).  The argument `out`
is the content of the three reference parameters on entry; the result is their
content on return.  When no branch of the chain fires nothing is assigned and
`out` is returned unchanged.  Sums and differences are exact; `compute_index_int`
is the same function in 32-bit `int` arithmetic. -/
def compute_index (total_size_dim mat_size_dim fil_size_dim tile_offset_dim : Int)
    (out : IndexOut) : IndexOut :=
  if tile_offset_dim = 0 ∧ mat_size_dim < total_size_dim then
    { offset_src_dim := tile_offset_dim
      range_src_dim := mat_size_dim + Int.tdiv fil_size_dim 2
      clamp_edge_dim := true }
  else if tile_offset_dim ≠ 0 ∧ tile_offset_dim + mat_size_dim < total_size_dim then
    { offset_src_dim := tile_offset_dim - Int.tdiv fil_size_dim 2
      range_src_dim := mat_size_dim + fil_size_dim - 1
      clamp_edge_dim := false }
  else if tile_offset_dim ≠ 0 ∧ tile_offset_dim + mat_size_dim ≥ total_size_dim then
    { offset_src_dim := tile_offset_dim - Int.tdiv fil_size_dim 2
      range_src_dim := mat_size_dim + Int.tdiv fil_size_dim 2
      clamp_edge_dim := false }
  else if tile_offset_dim = 0 ∧ mat_size_dim ≥ total_size_dim then
    { offset_src_dim := tile_offset_dim
      range_src_dim := mat_size_dim
      clamp_edge_dim := true }
  else out

/-- The four branches of the `if`/`else if` chain of `compute_index`, in source
order: lines 38, 43, 49 and 55. -/
inductive Branch where
  | first
  | interior
  | last
  | single
deriving DecidableEq

/-- The condition guarding each branch of `compute_index`, as written in the
source. -/
def Branch.test (b : Branch) (total_size_dim mat_size_dim tile_offset_dim : Int) : Bool :=
  match b with
  | .first => decide (tile_offset_dim = 0 ∧ mat_size_dim < total_size_dim)
  | .interior => decide (tile_offset_dim ≠ 0 ∧ tile_offset_dim + mat_size_dim < total_size_dim)
  | .last => decide (tile_offset_dim ≠ 0 ∧ tile_offset_dim + mat_size_dim ≥ total_size_dim)
  | .single => decide (tile_offset_dim = 0 ∧ mat_size_dim ≥ total_size_dim)

/-- The assignments made by the body of each branch of `compute_index`. -/
def Branch.assign (b : Branch) (mat_size_dim fil_size_dim tile_offset_dim : Int) : IndexOut :=
  match b with
  | .first =>
    { offset_src_dim := tile_offset_dim
      range_src_dim := mat_size_dim + Int.tdiv fil_size_dim 2
      clamp_edge_dim := true }
  | .interior =>
    { offset_src_dim := tile_offset_dim - Int.tdiv fil_size_dim 2
      range_src_dim := mat_size_dim + fil_size_dim - 1
      clamp_edge_dim := false }
  | .last =>
    { offset_src_dim := tile_offset_dim - Int.tdiv fil_size_dim 2
      range_src_dim := mat_size_dim + Int.tdiv fil_size_dim 2
      clamp_edge_dim := false }
  | .single =>
    { offset_src_dim := tile_offset_dim
      range_src_dim := mat_size_dim
      clamp_edge_dim := true }

/-- An `if`/`else if` chain that tests the given branches in the given order and
runs the body of the first one whose condition holds; with no such branch the
reference parameters keep their content `out`. -/
def test_in_order (total_size_dim mat_size_dim fil_size_dim tile_offset_dim : Int)
    (out : IndexOut) : List Branch → IndexOut
  | [] => out
  | b :: rest =>
    if b.test total_size_dim mat_size_dim tile_offset_dim then
      b.assign mat_size_dim fil_size_dim tile_offset_dim
    else test_in_order total_size_dim mat_size_dim fil_size_dim tile_offset_dim out rest

/-- The branch of the chain of `compute_index` that is entered, following the
conditions of the source in source order; `none` when the chain falls through. -/
def compute_index_branch (total_size_dim mat_size_dim tile_offset_dim : Int) : Option Branch :=
  if tile_offset_dim = 0 ∧ mat_size_dim < total_size_dim then some .first
  else if tile_offset_dim ≠ 0 ∧ tile_offset_dim + mat_size_dim < total_size_dim then some .interior
  else if tile_offset_dim ≠ 0 ∧ tile_offset_dim + mat_size_dim ≥ total_size_dim then some .last
  else if tile_offset_dim = 0 ∧ mat_size_dim ≥ total_size_dim then some .single
  else none

/-! ## 32-bit `int` arithmetic -/

/-- The smallest value of a 32-bit `int`. -/
def INT_MIN : Int := -2147483648

/-- The largest value of a 32-bit `int`. -/
def INT_MAX : Int := 2147483647

/-- The value lies in the range of a 32-bit `int`. -/
def in_int_range (x : Int) : Prop := INT_MIN ≤ x ∧ x ≤ INT_MAX

instance (x : Int) : Decidable (in_int_range x) :=
  inferInstanceAs (Decidable (INT_MIN ≤ x ∧ x ≤ INT_MAX))

/-- The 32-bit two's complement `int` that an `int` operation with exact result
`x` leaves: the representative of `x` modulo `2^32` in `[-2^31, 2^31)`. -/
def wrap_int (x : Int) : Int := (x + 2147483648) % 4294967296 - 2147483648

/-- The function `compute_index` of the source (lines 34-61) in 32-bit `int`
arithmetic: the result of every `+` and `-` is reduced by `wrap_int`, in the
order in which the source evaluates them (`mat_size_dim + fil_size_dim - 1` is
`(mat_size_dim + fil_size_dim) - 1`).  The quotient `fil_size_dim / 2` of an
`int` is an `int` and needs no reduction. -/
def compute_index_int (total_size_dim mat_size_dim fil_size_dim tile_offset_dim : Int)
    (out : IndexOut) : IndexOut :=
  if tile_offset_dim = 0 ∧ mat_size_dim < total_size_dim then
    { offset_src_dim := tile_offset_dim
      range_src_dim := wrap_int (mat_size_dim + Int.tdiv fil_size_dim 2)
      clamp_edge_dim := true }
  else if tile_offset_dim ≠ 0 ∧ wrap_int (tile_offset_dim + mat_size_dim) < total_size_dim then
    { offset_src_dim := wrap_int (tile_offset_dim - Int.tdiv fil_size_dim 2)
      range_src_dim := wrap_int (wrap_int (mat_size_dim + fil_size_dim) - 1)
      clamp_edge_dim := false }
  else if tile_offset_dim ≠ 0 ∧ wrap_int (tile_offset_dim + mat_size_dim) ≥ total_size_dim then
    { offset_src_dim := wrap_int (tile_offset_dim - Int.tdiv fil_size_dim 2)
      range_src_dim := wrap_int (mat_size_dim + Int.tdiv fil_size_dim 2)
      clamp_edge_dim := false }
  else if tile_offset_dim = 0 ∧ mat_size_dim ≥ total_size_dim then
    { offset_src_dim := tile_offset_dim
      range_src_dim := mat_size_dim
      clamp_edge_dim := true }
  else out

/-- The call of `compute_index` evaluates without signed overflow: the four
arguments are `int` values, and so is every intermediate result that the call
evaluates.  With offset zero and `mat_size_dim < total_size_dim` (line 38) that
is `mat_size_dim + fil_size_dim / 2` (line 40); with offset zero otherwise no
arithmetic is evaluated (`&&` skips the sums of lines 44 and 50).  With a
non-zero offset the sum `tile_offset_dim + mat_size_dim` of lines 44 and 50 and
the difference `tile_offset_dim - fil_size_dim / 2` of lines 45 and 51 are
evaluated, and then `mat_size_dim + fil_size_dim` and
`mat_size_dim + fil_size_dim - 1` (line 46) when the sum is below
`total_size_dim`, or `mat_size_dim + fil_size_dim / 2` (line 52) when it is
not. -/
def no_overflow (total_size_dim mat_size_dim fil_size_dim tile_offset_dim : Int) : Prop :=
  (in_int_range total_size_dim ∧ in_int_range mat_size_dim ∧
    in_int_range fil_size_dim ∧ in_int_range tile_offset_dim) ∧
  (tile_offset_dim = 0 → mat_size_dim < total_size_dim →
    in_int_range (mat_size_dim + Int.tdiv fil_size_dim 2)) ∧
  (tile_offset_dim ≠ 0 →
    in_int_range (tile_offset_dim + mat_size_dim) ∧
    in_int_range (tile_offset_dim - Int.tdiv fil_size_dim 2)) ∧
  (tile_offset_dim ≠ 0 → tile_offset_dim + mat_size_dim < total_size_dim →
    in_int_range (mat_size_dim + fil_size_dim) ∧
    in_int_range (mat_size_dim + fil_size_dim - 1)) ∧
  (tile_offset_dim ≠ 0 → tile_offset_dim + mat_size_dim ≥ total_size_dim →
    in_int_range (mat_size_dim + Int.tdiv fil_size_dim 2))

instance (total_size_dim mat_size_dim fil_size_dim tile_offset_dim : Int) :
    Decidable (no_overflow total_size_dim mat_size_dim fil_size_dim tile_offset_dim) :=
  inferInstanceAs (Decidable (_ ∧ _ ∧ _ ∧ _ ∧ _))

/-- The timing slot of line 149, `int i = n + m * num_host_tile_n`, in 32-bit
`int` arithmetic. -/
def slot_int (m n num_host_tile_n : Int) : Int :=
  wrap_int (n + wrap_int (m * num_host_tile_n))

/-- The `int` product `num_host_tile_m * num_host_tile_n` that sizes the vectors
`events` and `starts` (lines 143-145), in 32-bit `int` arithmetic. -/
def slot_count_int (num_host_tile_m num_host_tile_n : Int) : Int :=
  wrap_int (num_host_tile_m * num_host_tile_n)

/-! ## The tile loop of `main` -/

/-- One iteration of the inner loop of `main`: the loop variables, the timing
slot `i`, the output offsets, and the two results of `compute_index`.  The slot
is the exact value of `n + m * num_host_tile_n`; `slot_int` is the `int` that
line 149 leaves. -/
structure TileCall where
  m : Int
  n : Int
  i : Int
  host_offset_m : Int
  host_offset_n : Int
  src_m : IndexOut
  src_n : IndexOut
deriving DecidableEq

/-- The inner loop of `main` (lines 148-207), `for (int n = 0; n < num_host_tile_n; n++)`,
started at loop state `(n, host_offset_n)`.  The first argument bounds the number
of iterations; `uninit` is the indeterminate content of the locals declared at
lines 150-153 before `compute_index` writes them. -/
def inner_loop (total_buffer mat_size fil_size : matrix_size_t) (num_host_tile_n : Int)
    (uninit : IndexOut) (m host_offset_m : Int) : Nat → Int → Int → List TileCall
  | 0, _, _ => []
  | fuel + 1, n, host_offset_n =>
    if n < num_host_tile_n then
      { m := m
        n := n
        i := n + m * num_host_tile_n
        host_offset_m := host_offset_m
        host_offset_n := host_offset_n
        src_m := compute_index total_buffer.m mat_size.m fil_size.m host_offset_m uninit
        src_n := compute_index total_buffer.n mat_size.n fil_size.n host_offset_n uninit }
        :: inner_loop total_buffer mat_size fil_size num_host_tile_n uninit m host_offset_m
            fuel (n + 1) (host_offset_n + mat_size.n)
    else []

/-- The outer loop of `main` (lines 146-209), `for (int m = 0; m < num_host_tile_m; m++)`,
started at loop state `(m, host_offset_m)`; each iteration sets `host_offset_n = 0`
and runs the inner loop from `n = 0`. -/
def outer_loop (total_buffer mat_size fil_size : matrix_size_t)
    (num_host_tile_m num_host_tile_n : Int) (uninit : IndexOut) :
    Nat → Int → Int → List TileCall
  | 0, _, _ => []
  | fuel + 1, m, host_offset_m =>
    if m < num_host_tile_m then
      inner_loop total_buffer mat_size fil_size num_host_tile_n uninit m host_offset_m
          num_host_tile_n.toNat 0 0
        ++ outer_loop total_buffer mat_size fil_size num_host_tile_m num_host_tile_n uninit
            fuel (m + 1) (host_offset_m + mat_size.m)
    else []

/-- The tiles visited by `main` (lines 72-73 and 142-209), with the sizes that
`main` fixes at lines 66-69 taken as parameters.  A counting loop from `0` to
`num` makes `num.toNat` iterations, which is the bound handed to the loops. -/
def tile_loop (total_buffer mat_size fil_size : matrix_size_t) (uninit : IndexOut) :
    List TileCall :=
  let num_host_tile_n := Int.tdiv total_buffer.n mat_size.n
  let num_host_tile_m := Int.tdiv total_buffer.m mat_size.m
  outer_loop total_buffer mat_size fil_size num_host_tile_m num_host_tile_n uninit
    num_host_tile_m.toNat 0 0

/-- The run of `main` with the sizes of lines 66-69: a 1024 x 1024 buffer,
512 x 512 tiles and a 3 x 3 filter. -/
def main (uninit : IndexOut) : List TileCall :=
  tile_loop ⟨1024, 1024⟩ ⟨512, 512⟩ ⟨3, 3⟩ uninit

/-- Modelled from the spec: the stage-out copy `copy_rectangular` called at lines
202-204 is defined in `copy.hpp`, which is not part of the sources at hand; by
the spec it writes the tile-sized region at the tile offset, that is rows
`[host_offset_m, host_offset_m + mat_size.m)` and columns
`[host_offset_n, host_offset_n + mat_size.n)` of the output buffer. -/
def TileCall.covers (t : TileCall) (mat_size : matrix_size_t) (r c : Int) : Prop :=
  (t.host_offset_m ≤ r ∧ r < t.host_offset_m + mat_size.m) ∧
  (t.host_offset_n ≤ c ∧ c < t.host_offset_n + mat_size.n)

instance (t : TileCall) (mat_size : matrix_size_t) (r c : Int) :
    Decidable (t.covers mat_size r c) := by
  unfold TileCall.covers; infer_instance


/-- The iteration record of the tile with loop variables `(m, n)`, with the
offsets written as products; `tile_loop_eq` shows that the loop, which
accumulates the offsets by repeated addition, produces these records. -/
def tile_at (total_buffer mat_size fil_size : matrix_size_t) (num_host_tile_n : Int)
    (uninit : IndexOut) (m n : Int) : TileCall :=
  { m := m
    n := n
    i := n + m * num_host_tile_n
    host_offset_m := m * mat_size.m
    host_offset_n := n * mat_size.n
    src_m := compute_index total_buffer.m mat_size.m fil_size.m (m * mat_size.m) uninit
    src_n := compute_index total_buffer.n mat_size.n fil_size.n (n * mat_size.n) uninit }

/-! ## Auxiliary facts about the planner -/

/-- For a non-negative dividend the truncating division by two is the floor
division. -/
theorem tdiv_two_eq_ediv {f : Int} (h : 0 ≤ f) : Int.tdiv f 2 = f / 2 :=
  Int.tdiv_eq_ediv h (by decide)

/-- The function `compute_index` runs the body of the branch that
`compute_index_branch` names, and leaves `out` untouched on fall-through. -/
theorem compute_index_eq_assign (total mat fil off : Int) (out : IndexOut) :
    compute_index total mat fil off out =
      match compute_index_branch total mat off with
      | some b => b.assign mat fil off
      | none => out := by
  unfold compute_index compute_index_branch
  split_ifs <;> rfl

/-- The branch entered is one whose condition holds. -/
theorem compute_index_branch_test {total mat off : Int} {b : Branch}
    (h : compute_index_branch total mat off = some b) : b.test total mat off = true := by
  unfold compute_index_branch at h
  split_ifs at h with h1 h2 h3 h4 <;> cases h <;> simp [Branch.test] <;> omega

/-- At most one of the four conditions holds, so a branch whose condition holds
is the branch entered. -/
theorem compute_index_branch_of_test {total mat off : Int} {b : Branch}
    (h : b.test total mat off = true) : compute_index_branch total mat off = some b := by
  unfold compute_index_branch
  cases b <;> simp [Branch.test] at h <;> split_ifs <;> first | rfl | omega

/-- Testing the branches in any order that lists the entered branch gives the
body of that branch. -/
theorem test_in_order_of_mem {total mat fil off : Int} {b : Branch}
    (hb : compute_index_branch total mat off = some b) (out : IndexOut) :
    ∀ order : List Branch, b ∈ order →
      test_in_order total mat fil off out order = b.assign mat fil off
  | [], h => by simp at h
  | c :: rest, h => by
    unfold test_in_order
    by_cases hc : c.test total mat off = true
    · have hcb : some c = some b := (compute_index_branch_of_test hc).symm.trans hb
      cases hcb
      simp [hc]
    · have hne : b ≠ c := fun e => hc (e ▸ compute_index_branch_test hb)
      have hmem : b ∈ rest := by
        rcases List.mem_cons.mp h with e | e
        · exact absurd e hne
        · exact e
      simp only [hc]
      exact test_in_order_of_mem hb out rest hmem

/-- The chain of `compute_index` never falls through. -/
theorem compute_index_branch_ne_none (total mat off : Int) :
    compute_index_branch total mat off ≠ none := by
  unfold compute_index_branch
  split_ifs <;> first | omega | simp


/-- An exact result in the range of `int` is left unchanged by the 32-bit
reduction. -/
theorem wrap_int_of_in_range {x : Int} (h : in_int_range x) : wrap_int x = x := by
  unfold in_int_range INT_MIN INT_MAX at h
  unfold wrap_int
  omega

/-- On a call that evaluates without signed overflow, the 32-bit rendering of
`compute_index` returns what the exact rendering returns. -/
theorem compute_index_int_eq {total mat fil off : Int} (h : no_overflow total mat fil off)
    (out : IndexOut) :
    compute_index_int total mat fil off out = compute_index total mat fil off out := by
  obtain ⟨_, hfirst, hsum, hinterior, hlast⟩ := h
  unfold compute_index_int compute_index
  by_cases h0 : off = 0
  · by_cases hlt : mat < total
    · rw [if_pos ⟨h0, hlt⟩, if_pos ⟨h0, hlt⟩, wrap_int_of_in_range (hfirst h0 hlt)]
    · simp only [h0, hlt, ne_eq, not_true_eq_false, false_and, and_false, if_false]
  · obtain ⟨hs, hd⟩ := hsum h0
    rw [wrap_int_of_in_range hs, wrap_int_of_in_range hd]
    have h1 : ¬ (off = 0 ∧ mat < total) := fun c => h0 c.1
    by_cases hlt : off + mat < total
    · obtain ⟨ha, hb⟩ := hinterior h0 hlt
      rw [if_neg h1, if_neg h1, if_pos ⟨h0, hlt⟩, if_pos ⟨h0, hlt⟩,
        wrap_int_of_in_range ha, wrap_int_of_in_range hb]
    · have hc := hlast h0 (by omega)
      have h2 : ¬ (off ≠ 0 ∧ off + mat < total) := fun c => hlt c.2
      have h3 : off ≠ 0 ∧ off + mat ≥ total := ⟨h0, by omega⟩
      rw [if_neg h1, if_neg h1, if_neg h2, if_neg h2, if_pos h3, if_pos h3,
        wrap_int_of_in_range hc]

/-! ## Claims about the planner -/

/-- C2, at the scenario of the spec: for total 6, tile size 2, filter size 3 and
tile offset 2 the conditions of the interior case hold, nothing overflows, and
`compute_index` returns read extent 4 in both renderings, not the extent
`tileSize + 2 * radius - 1 = 3` of the claim. -/
theorem interior_extent_counterexample :
    ((2 : Int) ≠ 0 ∧ (2 : Int) + 2 < 6 ∧ Int.tmod 3 2 = 1) ∧
    no_overflow 6 2 3 2 ∧
    compute_index_int 6 2 3 2 ⟨0, 0, true⟩ = ⟨4, 1, false⟩ ∧
    compute_index 6 2 3 2 ⟨0, 0, true⟩ = ⟨4, 1, false⟩ ∧
    compute_index 6 2 3 2 ⟨0, 0, true⟩ ≠ ⟨2 + 2 * Int.tdiv 3 2 - 1, 2 - Int.tdiv 3 2, false⟩ := by
  decide

/-- C2, amended: on a call that evaluates without signed overflow, for a tile with
non-zero offset that ends strictly before the end of the buffer, `compute_index`
returns read offset `tileOffset - radius`, read extent
`tileSize + filterSize - 1` and clamp flag false; for a positive odd filter size
that extent is `tileSize + 2 * radius`. -/
theorem compute_index_interior (total mat fil off : Int) (out : IndexOut)
    (hno : no_overflow total mat fil off) (hoff : off ≠ 0) (hlt : off + mat < total) :
    compute_index_int total mat fil off out
        = ⟨mat + fil - 1, off - Int.tdiv fil 2, false⟩ ∧
    (0 < fil → fil % 2 = 1 →
      compute_index_int total mat fil off out
        = ⟨mat + 2 * Int.tdiv fil 2, off - Int.tdiv fil 2, false⟩) := by
  have h : compute_index_int total mat fil off out
      = ⟨mat + fil - 1, off - Int.tdiv fil 2, false⟩ := by
    rw [compute_index_int_eq hno]
    unfold compute_index
    rw [if_neg (fun h => hoff h.1), if_pos ⟨hoff, hlt⟩]
  refine ⟨h, fun hpos hodd => ?_⟩
  rw [h, tdiv_two_eq_ediv (le_of_lt hpos)]
  have e : mat + fil - 1 = mat + 2 * (fil / 2) := by omega
  rw [e]

/-- Witness for C2 (amended): the scenario of the spec gives `(1, 4, false)`. -/
theorem compute_index_interior_witness :
    compute_index_int 6 2 3 2 ⟨0, 0, true⟩ = ⟨2 + 3 - 1, 2 - Int.tdiv 3 2, false⟩ ∧
    compute_index_int 6 2 3 2 ⟨0, 0, true⟩
      = ⟨2 + 2 * Int.tdiv 3 2, 2 - Int.tdiv 3 2, false⟩ :=
  ⟨(compute_index_interior 6 2 3 2 ⟨0, 0, true⟩ (by decide) (by decide) (by decide)).1,
   (compute_index_interior 6 2 3 2 ⟨0, 0, true⟩ (by decide) (by decide) (by decide)).2
     (by decide) (by decide)⟩

/-- C3, as stated, fails where an `int` sum overflows.  With total 2147483647,
tile size 2147483646, filter size 5 and offset 0 the conditions of the first
case hold and the code returns read extent -2147483648, not
`tileSize + radius = 2147483648`.  With total 5, tile size 1, filter size 3 and
offset 2147483647 the conditions of the last case hold and the code returns
`(2147483646, 3, false)`, not `(tileOffset - radius, tileSize + radius, false)
= (2147483646, 2, false)`. -/
theorem edge_tiles_counterexample :
    (((0 : Int) = 0 ∧ (2147483646 : Int) < 2147483647) ∧
      (in_int_range 2147483647 ∧ in_int_range 2147483646 ∧ in_int_range 5 ∧ in_int_range 0) ∧
      compute_index_int 2147483647 2147483646 5 0 ⟨0, 0, false⟩ = ⟨-2147483648, 0, true⟩ ∧
      compute_index_int 2147483647 2147483646 5 0 ⟨0, 0, false⟩
        ≠ ⟨2147483646 + Int.tdiv 5 2, 0, true⟩) ∧
    (((2147483647 : Int) ≠ 0 ∧ (2147483647 : Int) + 1 ≥ 5) ∧
      (in_int_range 5 ∧ in_int_range 1 ∧ in_int_range 3 ∧ in_int_range 2147483647) ∧
      compute_index_int 5 1 3 2147483647 ⟨0, 0, true⟩ = ⟨3, 2147483646, false⟩ ∧
      compute_index_int 5 1 3 2147483647 ⟨0, 0, true⟩
        ≠ ⟨1 + Int.tdiv 3 2, 2147483647 - Int.tdiv 3 2, false⟩) := by
  decide

/-- C3, amended: on a call that evaluates without signed overflow, a first tile
(offset zero, tile smaller than the buffer) gets
`(readOffset, readExtent, clampEdge) = (0, tileSize + radius, true)`, and a last
tile (offset non-zero, tile reaching the end of the buffer) gets
`(tileOffset - radius, tileSize + radius, false)`. -/
theorem compute_index_edge_tiles (total mat fil off : Int) (out : IndexOut)
    (hno : no_overflow total mat fil off) :
    (off = 0 → mat < total →
      compute_index_int total mat fil off out = ⟨mat + Int.tdiv fil 2, 0, true⟩) ∧
    (off ≠ 0 → off + mat ≥ total →
      compute_index_int total mat fil off out
        = ⟨mat + Int.tdiv fil 2, off - Int.tdiv fil 2, false⟩) := by
  rw [compute_index_int_eq hno]
  constructor
  · intro h0 hlt
    unfold compute_index
    rw [if_pos ⟨h0, hlt⟩, h0]
  · intro hoff hge
    unfold compute_index
    rw [if_neg (fun h => hoff h.1), if_neg (fun h => by omega), if_pos ⟨hoff, hge⟩]

/-- Witness for C3 (amended): with total 6, tile size 2 and filter size 3 the
first tile (offset 0) reads `(0, 3, true)` and the last tile (offset 4) reads
`(3, 3, false)`. -/
theorem compute_index_edge_tiles_witness :
    compute_index_int 6 2 3 0 ⟨0, 0, false⟩ = ⟨3, 0, true⟩ ∧
    compute_index_int 6 2 3 4 ⟨0, 0, true⟩ = ⟨3, 3, false⟩ :=
  ⟨(compute_index_edge_tiles 6 2 3 0 ⟨0, 0, false⟩ (by decide)).1 rfl (by decide),
   (compute_index_edge_tiles 6 2 3 4 ⟨0, 0, true⟩ (by decide)).2 (by decide) (by decide)⟩

/-- C4: with offset zero and a tile at least as large as the buffer,
`compute_index` returns clamp flag true, read offset 0 and read extent
`tileSize`, whatever the filter size. -/
theorem compute_index_single (total mat fil off : Int) (out : IndexOut)
    (h0 : off = 0) (hge : mat ≥ total) :
    compute_index total mat fil off out = ⟨mat, 0, true⟩ := by
  unfold compute_index
  rw [if_neg (fun h => by omega), if_neg (fun h => h.1 h0), if_neg (fun h => h.1 h0),
    if_pos ⟨h0, hge⟩, h0]

/-- Witness for C4: a 4-wide tile on a 4-wide buffer with a 9-wide filter reads
`(0, 4, true)`. -/
theorem compute_index_single_witness :
    compute_index 4 4 9 0 ⟨0, 0, false⟩ = ⟨4, 0, true⟩ :=
  compute_index_single 4 4 9 0 ⟨0, 0, false⟩ rfl (by decide)

/-- C6: the clamp flag returned by `compute_index` is true exactly when the
first or the single branch is entered, and exactly when the tile offset is
zero. -/
theorem clamp_edge_iff (total mat fil off : Int) (out : IndexOut) :
    ((compute_index total mat fil off out).clamp_edge_dim = true ↔
      (compute_index_branch total mat off = some .first ∨
        compute_index_branch total mat off = some .single)) ∧
    ((compute_index total mat fil off out).clamp_edge_dim = true ↔ off = 0) := by
  unfold compute_index compute_index_branch
  constructor <;> split_ifs <;> simp_all


/-- C9, as stated, fails where an `int` sum overflows: with total 2147483647,
tile size 2147483646, filter size 5 and offset 0 (tile size non-negative, filter
size at least 1, first case) the code returns read offset 0 and read extent
-2147483648, so the window ends before the end of the tile and the trailing
margin is not `fil_size_dim / 2`. -/
theorem window_counterexample :
    ((2147483646 : Int) ≥ 0 ∧ (5 : Int) ≥ 1 ∧ (0 : Int) = 0 ∧
      (2147483646 : Int) < 2147483647) ∧
    (in_int_range 2147483647 ∧ in_int_range 2147483646 ∧ in_int_range 5 ∧ in_int_range 0) ∧
    compute_index_int 2147483647 2147483646 5 0 ⟨0, 0, false⟩ = ⟨-2147483648, 0, true⟩ ∧
    ¬ ((compute_index_int 2147483647 2147483646 5 0 ⟨0, 0, false⟩).offset_src_dim
        + (compute_index_int 2147483647 2147483646 5 0 ⟨0, 0, false⟩).range_src_dim
        ≥ 0 + 2147483646) ∧
    (compute_index_int 2147483647 2147483646 5 0 ⟨0, 0, false⟩).offset_src_dim
        + (compute_index_int 2147483647 2147483646 5 0 ⟨0, 0, false⟩).range_src_dim
        - (0 + 2147483646) ≠ Int.tdiv 5 2 := by
  decide

/-- C9, amended: on a call that evaluates without signed overflow, with a
non-negative tile size and a filter size of at least 1, the tile starts `0`
samples into the read window when the clamp flag is true and `fil_size_dim / 2`
samples into it when the flag is false, the window ends at or after the end of
the tile, and the trailing margin is `fil_size_dim / 2` in the first case,
`fil_size_dim - 1 - fil_size_dim / 2` in the interior case and `0` in the last
and single cases. -/
theorem window_contains_tile (total mat fil off : Int) (out : IndexOut)
    (_hmat : mat ≥ 0) (hfil : fil ≥ 1) (hno : no_overflow total mat fil off) :
    let res := compute_index_int total mat fil off out
    let margin := res.offset_src_dim + res.range_src_dim - (off + mat)
    (res.clamp_edge_dim = true → off - res.offset_src_dim = 0) ∧
    (res.clamp_edge_dim = false → off - res.offset_src_dim = Int.tdiv fil 2) ∧
    res.offset_src_dim ≤ off ∧
    res.offset_src_dim + res.range_src_dim ≥ off + mat ∧
    (off = 0 ∧ mat < total → margin = Int.tdiv fil 2) ∧
    (off ≠ 0 ∧ off + mat < total → margin = fil - 1 - Int.tdiv fil 2) ∧
    (off ≠ 0 ∧ off + mat ≥ total → margin = 0) ∧
    (off = 0 ∧ mat ≥ total → margin = 0) := by
  intro res margin
  have hr : Int.tdiv fil 2 = fil / 2 := tdiv_two_eq_ediv (by omega)
  have hres : res = compute_index total mat fil off out := compute_index_int_eq hno out
  have hmargin : margin = res.offset_src_dim + res.range_src_dim - (off + mat) := rfl
  rw [hmargin, hres, hr]
  unfold compute_index
  split_ifs <;> simp <;> omega

/-- Witness for C9 (amended): the interior tile at offset 2 of a 6-wide buffer
with tile size 2 and filter size 4 starts 2 samples into its window and has
trailing margin 1. -/
theorem window_contains_tile_witness :
    2 - (compute_index_int 6 2 4 2 ⟨0, 0, true⟩).offset_src_dim = Int.tdiv 4 2 ∧
    (compute_index_int 6 2 4 2 ⟨0, 0, true⟩).offset_src_dim
      + (compute_index_int 6 2 4 2 ⟨0, 0, true⟩).range_src_dim - (2 + 2)
      = 4 - 1 - Int.tdiv 4 2 :=
  ⟨(window_contains_tile 6 2 4 2 ⟨0, 0, true⟩ (by decide) (by decide) (by decide)).2.1
     (by decide),
   (window_contains_tile 6 2 4 2 ⟨0, 0, true⟩ (by decide) (by decide) (by decide)).2.2.2.2.2.1
     (by decide)⟩

/-- C5: on every input exactly one of the four branch conditions of
`compute_index` holds; the chain never falls through; the result does not depend
on the previous content of the reference parameters, so all three are assigned;
and testing the four branches in any order gives the result of `compute_index`. -/
theorem branches_exclusive_exhaustive (total mat fil off : Int) :
    (∃! b : Branch, b.test total mat off = true) ∧
    compute_index_branch total mat off ≠ none ∧
    (∀ out1 out2 : IndexOut,
      compute_index total mat fil off out1 = compute_index total mat fil off out2) ∧
    (∀ (order : List Branch) (out : IndexOut),
      order.Perm [Branch.first, Branch.interior, Branch.last, Branch.single] →
      test_in_order total mat fil off out order = compute_index total mat fil off out) := by
  have hne := compute_index_branch_ne_none total mat off
  obtain ⟨b, hb⟩ := Option.ne_none_iff_exists'.mp hne
  have hassign : ∀ out, compute_index total mat fil off out = b.assign mat fil off := by
    intro out
    rw [compute_index_eq_assign, hb]
  refine ⟨⟨b, compute_index_branch_test hb, ?_⟩, hne, ?_, ?_⟩
  · intro c hc
    have e : some c = some b := (compute_index_branch_of_test hc).symm.trans hb
    exact Option.some.inj e
  · intro out1 out2
    rw [hassign, hassign]
  · intro order out hperm
    rw [hassign]
    apply test_in_order_of_mem hb
    rw [hperm.mem_iff]
    cases b <;> simp

/-- Witness for C5: at total 6, tile size 2, filter size 3 and offset 2, testing
the branches in reverse source order gives the result of `compute_index`. -/
theorem branches_exclusive_exhaustive_witness :
    test_in_order 6 2 3 2 ⟨9, 9, true⟩
        [Branch.single, Branch.last, Branch.interior, Branch.first]
      = compute_index 6 2 3 2 ⟨9, 9, true⟩ :=
  (branches_exclusive_exhaustive 6 2 3 2).2.2.2
    [Branch.single, Branch.last, Branch.interior, Branch.first] ⟨9, 9, true⟩
    (List.reverse_perm [Branch.first, Branch.interior, Branch.last, Branch.single])


/-- For multiples `a < b` of a positive `d`, the next multiple after `a` is at
most `b`. -/
theorem next_multiple_le {d a b : Int} (hd : 0 < d) (ha : d ∣ a) (hb : d ∣ b)
    (h : a < b) : a + d ≤ b := by
  obtain ⟨j, rfl⟩ := ha
  obtain ⟨k, rfl⟩ := hb
  have hjk : j < k := lt_of_mul_lt_mul_left h (le_of_lt hd)
  have h1 : d * (j + 1) ≤ d * k := Int.mul_le_mul_of_nonneg_left (by omega) (le_of_lt hd)
  rw [mul_add, mul_one] at h1
  exact h1

/-- C1, as stated, fails at three valid planner inputs, none of which overflows:
with total 6, tile size 2, filter size 7 and offset 2 the read offset is
negative; with total 5, tile size 2, filter size 3 and offset 4 the window ends
after the buffer; with total 3, tile size 5, filter size 3 and offset 0 the
window ends after the buffer. -/
theorem read_window_counterexample :
    (((0 : Int) < 6 ∧ (0 : Int) < 2 ∧ (0 : Int) < 7 ∧ (7 : Int) % 2 = 1 ∧
        (2 : Int) ∣ 2 ∧ (2 : Int) < 6) ∧ no_overflow 6 2 7 2 ∧
      (compute_index_int 6 2 7 2 ⟨0, 0, true⟩).offset_src_dim < 0 ∧
      (compute_index 6 2 7 2 ⟨0, 0, true⟩).offset_src_dim < 0) ∧
    (((0 : Int) < 5 ∧ (0 : Int) < 2 ∧ (0 : Int) < 3 ∧ (3 : Int) % 2 = 1 ∧
        (2 : Int) ∣ 4 ∧ (4 : Int) < 5) ∧ no_overflow 5 2 3 4 ∧
      (compute_index_int 5 2 3 4 ⟨0, 0, true⟩).offset_src_dim
        + (compute_index_int 5 2 3 4 ⟨0, 0, true⟩).range_src_dim > 5 ∧
      (compute_index 5 2 3 4 ⟨0, 0, true⟩).offset_src_dim
        + (compute_index 5 2 3 4 ⟨0, 0, true⟩).range_src_dim > 5) ∧
    (((0 : Int) < 3 ∧ (0 : Int) < 5 ∧ (0 : Int) < 3 ∧ (3 : Int) % 2 = 1 ∧
        (0 : Int) = 0 ∧ (5 : Int) ≥ 3) ∧ no_overflow 3 5 3 0 ∧
      (compute_index_int 3 5 3 0 ⟨0, 0, false⟩).offset_src_dim
        + (compute_index_int 3 5 3 0 ⟨0, 0, false⟩).range_src_dim > 3 ∧
      (compute_index 3 5 3 0 ⟨0, 0, false⟩).offset_src_dim
        + (compute_index 3 5 3 0 ⟨0, 0, false⟩).range_src_dim > 3) := by
  decide

/-- C1, amended: for every valid planner input (positive total, tile size and
filter size, filter size odd, tile offset a non-negative multiple of the tile
size below total, or zero when the tile size is at least total) on which the
call evaluates without signed overflow, the read window lies inside the buffer
(`offset_src_dim >= 0` and `offset_src_dim + range_src_dim <= total_size_dim`)
if and only if the tile ends inside the buffer, the radius `filterSize / 2` is
at most the tile offset unless that offset is zero, and the tile is followed by
at least one radius of samples unless it ends exactly at the end of the buffer;
in particular the window lies inside the buffer whenever total is an exact
multiple of the tile size and the radius is at most the tile size. -/
theorem read_window_in_bounds (total mat fil off : Int) (out : IndexOut)
    (htotal : 0 < total) (hmat : 0 < mat) (hfil : 0 < fil) (hodd : fil % 2 = 1)
    (hoff : (0 ≤ off ∧ mat ∣ off ∧ off < total) ∨ (off = 0 ∧ mat ≥ total))
    (hno : no_overflow total mat fil off) :
    ((0 ≤ (compute_index_int total mat fil off out).offset_src_dim ∧
        (compute_index_int total mat fil off out).offset_src_dim
          + (compute_index_int total mat fil off out).range_src_dim ≤ total) ↔
      (off + mat ≤ total ∧ (off ≠ 0 → Int.tdiv fil 2 ≤ off) ∧
        (off + mat ≠ total → off + mat + Int.tdiv fil 2 ≤ total))) ∧
    (mat ∣ total → Int.tdiv fil 2 ≤ mat →
      0 ≤ (compute_index_int total mat fil off out).offset_src_dim ∧
      (compute_index_int total mat fil off out).offset_src_dim
        + (compute_index_int total mat fil off out).range_src_dim ≤ total) := by
  have hr : Int.tdiv fil 2 = fil / 2 := tdiv_two_eq_ediv (le_of_lt hfil)
  have hiff : (0 ≤ (compute_index_int total mat fil off out).offset_src_dim ∧
        (compute_index_int total mat fil off out).offset_src_dim
          + (compute_index_int total mat fil off out).range_src_dim ≤ total) ↔
      (off + mat ≤ total ∧ (off ≠ 0 → Int.tdiv fil 2 ≤ off) ∧
        (off + mat ≠ total → off + mat + Int.tdiv fil 2 ≤ total)) := by
    rw [compute_index_int_eq hno]
    unfold compute_index
    rw [hr]
    split_ifs with h1 h2 h3 h4
    · simp only
      constructor <;> intro h <;> omega
    · simp only
      constructor <;> intro h <;> omega
    · simp only
      constructor <;> intro h <;> omega
    · simp only
      constructor <;> intro h <;> omega
    · omega
  refine ⟨hiff, fun hdiv hrad => hiff.mpr ?_⟩
  have hoff3 : 0 ≤ off ∧ mat ∣ off ∧ off < total := by
    rcases hoff with h | ⟨h0, _⟩
    · exact h
    · subst h0
      exact ⟨le_refl 0, dvd_zero mat, htotal⟩
  obtain ⟨hnn, hdoff, hlt⟩ := hoff3
  have hfit : off + mat ≤ total := next_multiple_le hmat hdoff hdiv hlt
  refine ⟨hfit, fun hne => ?_, fun hne => ?_⟩
  · have : mat ≤ off := Int.le_of_dvd (lt_of_le_of_ne hnn (Ne.symm hne)) hdoff
    omega
  · have : off + mat + mat ≤ total :=
      next_multiple_le hmat (dvd_add hdoff (dvd_refl mat)) hdiv (lt_of_le_of_ne hfit hne)
    omega

/-- Witness for C1 (amended): the interior tile at offset 2 of a 6-wide buffer
with tile size 2 and filter size 3 reads a window inside the buffer. -/
theorem read_window_in_bounds_witness :
    0 ≤ (compute_index_int 6 2 3 2 ⟨0, 0, true⟩).offset_src_dim ∧
    (compute_index_int 6 2 3 2 ⟨0, 0, true⟩).offset_src_dim
      + (compute_index_int 6 2 3 2 ⟨0, 0, true⟩).range_src_dim ≤ 6 :=
  (read_window_in_bounds 6 2 3 2 ⟨0, 0, true⟩ (by decide) (by decide) (by decide) (by decide)
    (Or.inl (by decide)) (by decide)).2 (by decide) (by decide)

/-! ## The tiles visited by the loop -/

/-- With enough iterations left before the bound, the inner loop started at
column index `n` with offset `n * mat_size.n` visits the next `fuel` columns. -/
theorem inner_loop_eq (total_buffer mat_size fil_size : matrix_size_t) (N : Int)
    (uninit : IndexOut) (m : Int) :
    ∀ (fuel : Nat) (n : Int), n + fuel ≤ N →
      inner_loop total_buffer mat_size fil_size N uninit m (m * mat_size.m)
          fuel n (n * mat_size.n)
        = (List.range fuel).map
            (fun j : Nat => tile_at total_buffer mat_size fil_size N uninit m (n + j))
  | 0, _, _ => rfl
  | fuel + 1, n, h => by
    have hn : n < N := by push_cast at h; omega
    have hn1 : n + 1 + (fuel : Int) ≤ N := by push_cast at h; omega
    have ih := inner_loop_eq total_buffer mat_size fil_size N uninit m fuel (n + 1) hn1
    have hoff : (n + 1) * mat_size.n = n * mat_size.n + mat_size.n := by ring
    rw [hoff] at ih
    unfold inner_loop
    rw [if_pos hn, ih, List.range_succ_eq_map, List.map_cons, List.map_map]
    congr 1
    · simp [tile_at]
    · apply List.map_congr_left
      intro j _
      simp only [Function.comp, Nat.succ_eq_add_one]
      congr 1
      push_cast
      ring

/-- The inner loop as run by `main`: from column 0 and offset 0 with
`num_host_tile_n.toNat` iterations it visits the columns `0 .. N - 1`. -/
theorem inner_loop_main (total_buffer mat_size fil_size : matrix_size_t) (N : Int)
    (uninit : IndexOut) (m : Int) :
    inner_loop total_buffer mat_size fil_size N uninit m (m * mat_size.m) N.toNat 0 0
      = (List.range N.toNat).map
          (fun j : Nat => tile_at total_buffer mat_size fil_size N uninit m j) := by
  by_cases hN : 0 ≤ N
  · have h := inner_loop_eq total_buffer mat_size fil_size N uninit m N.toNat 0
      (by rw [Int.toNat_of_nonneg hN]; omega)
    simpa using h
  · have h0 : N.toNat = 0 := by omega
    rw [h0]
    rfl

/-- With enough iterations left before the bound, the outer loop started at row
index `m` with offset `m * mat_size.m` visits the next `fuel` rows. -/
theorem outer_loop_eq (total_buffer mat_size fil_size : matrix_size_t) (M N : Int)
    (uninit : IndexOut) :
    ∀ (fuel : Nat) (m : Int), m + fuel ≤ M →
      outer_loop total_buffer mat_size fil_size M N uninit fuel m (m * mat_size.m)
        = (List.range fuel).flatMap (fun k : Nat =>
            (List.range N.toNat).map
              (fun j : Nat => tile_at total_buffer mat_size fil_size N uninit (m + k) j))
  | 0, _, _ => rfl
  | fuel + 1, m, h => by
    have hm : m < M := by push_cast at h; omega
    have hm1 : m + 1 + (fuel : Int) ≤ M := by push_cast at h; omega
    have ih := outer_loop_eq total_buffer mat_size fil_size M N uninit fuel (m + 1) hm1
    have hoff : (m + 1) * mat_size.m = m * mat_size.m + mat_size.m := by ring
    rw [hoff] at ih
    unfold outer_loop
    rw [if_pos hm, ih, inner_loop_main, List.range_succ_eq_map, List.flatMap_cons,
      List.flatMap_map]
    congr 1
    · simp
    · congr 1
      funext k
      apply List.map_congr_left
      intro j _
      congr 1
      simp only [Nat.succ_eq_add_one]
      push_cast
      ring

/-- The tiles visited by the double loop of `main`, in visiting order: rows
`0 .. M - 1`, and within a row columns `0 .. N - 1`, where `M` and `N` are the
tile counts of lines 72-73. -/
theorem tile_loop_eq (total_buffer mat_size fil_size : matrix_size_t) (uninit : IndexOut) :
    tile_loop total_buffer mat_size fil_size uninit
      = (List.range (Int.tdiv total_buffer.m mat_size.m).toNat).flatMap (fun k : Nat =>
          (List.range (Int.tdiv total_buffer.n mat_size.n).toNat).map
            (fun j : Nat => tile_at total_buffer mat_size fil_size
              (Int.tdiv total_buffer.n mat_size.n) uninit k j)) := by
  unfold tile_loop
  simp only
  by_cases hM : 0 ≤ Int.tdiv total_buffer.m mat_size.m
  · have h := outer_loop_eq total_buffer mat_size fil_size
      (Int.tdiv total_buffer.m mat_size.m) (Int.tdiv total_buffer.n mat_size.n) uninit
      (Int.tdiv total_buffer.m mat_size.m).toNat 0
      (by rw [Int.toNat_of_nonneg hM]; omega)
    simpa using h
  · have h0 : (Int.tdiv total_buffer.m mat_size.m).toNat = 0 := by omega
    rw [h0]
    rfl

/-- Membership in the list of visited tiles. -/
theorem mem_tile_loop (total_buffer mat_size fil_size : matrix_size_t) (uninit : IndexOut)
    (t : TileCall) :
    t ∈ tile_loop total_buffer mat_size fil_size uninit ↔
      ∃ m n : Int, (0 ≤ m ∧ m < Int.tdiv total_buffer.m mat_size.m) ∧
        (0 ≤ n ∧ n < Int.tdiv total_buffer.n mat_size.n) ∧
        t = tile_at total_buffer mat_size fil_size
              (Int.tdiv total_buffer.n mat_size.n) uninit m n := by
  rw [tile_loop_eq]
  simp only [List.mem_flatMap, List.mem_map, List.mem_range]
  constructor
  · rintro ⟨k, hk, j, hj, rfl⟩
    exact ⟨k, j, ⟨by omega, by omega⟩, ⟨by omega, by omega⟩, rfl⟩
  · rintro ⟨m, n, ⟨hm0, hm⟩, ⟨hn0, hn⟩, rfl⟩
    refine ⟨m.toNat, by omega, n.toNat, by omega, ?_⟩
    rw [Int.toNat_of_nonneg hm0, Int.toNat_of_nonneg hn0]


/-! ## Arithmetic of tile indices -/

/-- A point lies in the `a`-th block of width `d` exactly when `a` is its
quotient by `d`. -/
theorem mem_block_iff {a d x : Int} (hd : 0 < d) :
    (a * d ≤ x ∧ x < a * d + d) ↔ a = x / d := by
  have h1 : a ≤ x / d ↔ a * d ≤ x := Int.le_ediv_iff_mul_le hd
  have h2 : x / d < a + 1 ↔ x < (a + 1) * d := Int.ediv_lt_iff_lt_mul hd
  have e : (a + 1) * d = a * d + d := by ring
  rw [e] at h2
  constructor
  · rintro ⟨hl, hu⟩
    have := h1.mpr hl
    have := h2.mpr hu
    omega
  · intro h
    exact ⟨h1.mp (by omega), h2.mp (by omega)⟩

/-- The slot `n + m * N` of a tile `(m, n)` of an `M` by `N` grid lies in
`[0, M * N)`. -/
theorem slot_bounds {m n M N : Int} (hm0 : 0 ≤ m) (hm : m < M) (hn0 : 0 ≤ n) (hn : n < N) :
    0 ≤ n + m * N ∧ n + m * N < M * N := by
  have h1 : 0 ≤ m * N := mul_nonneg hm0 (by omega)
  have h2 : 0 ≤ (M - 1 - m) * N := mul_nonneg (by omega) (by omega)
  have e : (M - 1 - m) * N = M * N - N - m * N := by ring
  rw [e] at h2
  constructor <;> omega

/-- The slot `n + m * N` determines the tile `(m, n)`. -/
theorem slot_injective {m1 n1 m2 n2 N : Int} (h1 : 0 ≤ n1 ∧ n1 < N) (h2 : 0 ≤ n2 ∧ n2 < N)
    (h : n1 + m1 * N = n2 + m2 * N) : m1 = m2 ∧ n1 = n2 := by
  have hN : N ≠ 0 := by omega
  have d1 : (n1 + m1 * N) / N = m1 := by
    rw [Int.add_mul_ediv_right _ _ hN, Int.ediv_eq_zero_of_lt h1.1 h1.2, zero_add]
  have d2 : (n2 + m2 * N) / N = m2 := by
    rw [Int.add_mul_ediv_right _ _ hN, Int.ediv_eq_zero_of_lt h2.1 h2.2, zero_add]
  have hm : m1 = m2 := by rw [← d1, ← d2, h]
  subst hm
  exact ⟨rfl, by omega⟩

/-- Row-major enumeration of an `M` by `N` grid lists the slots `0 .. M * N - 1`
in increasing order. -/
theorem row_major_slots (N : Nat) :
    ∀ M : Nat, (List.range M).flatMap (fun k : Nat =>
        (List.range N).map (fun j : Nat => (j : Int) + (k : Int) * (N : Int)))
      = (List.range (M * N)).map (fun k : Nat => (k : Int))
  | 0 => by simp
  | M + 1 => by
    rw [List.range_succ, List.flatMap_append, row_major_slots N M, List.flatMap_singleton,
      Nat.succ_mul, List.range_add, List.map_append, List.map_map]
    congr 1
    apply List.map_congr_left
    intro j _
    simp only [Function.comp]
    push_cast
    ring

/-- The slots handed to `tiled_cov`, in visiting order. -/
theorem tile_loop_slots (total_buffer mat_size fil_size : matrix_size_t) (uninit : IndexOut) :
    (tile_loop total_buffer mat_size fil_size uninit).map (fun t => t.i)
      = (List.range ((Int.tdiv total_buffer.m mat_size.m).toNat
            * (Int.tdiv total_buffer.n mat_size.n).toNat)).map (fun k : Nat => (k : Int)) := by
  rw [tile_loop_eq, List.map_flatMap]
  simp only [List.map_map, Function.comp, tile_at]
  by_cases hN : 0 ≤ Int.tdiv total_buffer.n mat_size.n
  · have h := row_major_slots (Int.tdiv total_buffer.n mat_size.n).toNat
      (Int.tdiv total_buffer.m mat_size.m).toNat
    rw [Int.toNat_of_nonneg hN] at h
    exact h
  · have h0 : (Int.tdiv total_buffer.n mat_size.n).toNat = 0 := by omega
    simp [h0]

/-- The tile visited at position `k` is handed the slot `k`. -/
theorem tile_loop_slot_at (total_buffer mat_size fil_size : matrix_size_t) (uninit : IndexOut)
    (k : Nat) (hk : k < (tile_loop total_buffer mat_size fil_size uninit).length) :
    ((tile_loop total_buffer mat_size fil_size uninit).get ⟨k, hk⟩).i = (k : Int) := by
  have hslots := tile_loop_slots total_buffer mat_size fil_size uninit
  have hk2 : k < ((tile_loop total_buffer mat_size fil_size uninit).map (fun t => t.i)).length := by
    simpa using hk
  have h1 : ((tile_loop total_buffer mat_size fil_size uninit).map (fun t => t.i))[k]
      = ((tile_loop total_buffer mat_size fil_size uninit).get ⟨k, hk⟩).i := by
    simp
  rw [← h1]
  simp only [hslots]
  simp

/-- The product of two non-negative tile counts, as a natural number. -/
theorem toNat_mul_toNat {M N : Int} (hM : 0 ≤ M) (hN : 0 ≤ N) :
    M.toNat * N.toNat = (M * N).toNat := by
  have h : ((M.toNat * N.toNat : Nat) : Int) = M * N := by
    push_cast
    rw [Int.toNat_of_nonneg hM, Int.toNat_of_nonneg hN]
  omega


/-! ## Claims about the tile loop -/

/-- C8, as stated, fails where the `int` product of the tile counts overflows:
with a 46341 x 46341 buffer and 1 x 1 tiles (sizes in the range of `int`) the
loop visits the tile `(46340, 46340)`, whose exact slot 2147488280 exceeds
`INT_MAX`; line 149 leaves the `int` -2147479016, which is negative, and the
`int` product that sizes the vectors (line 143) is -2147479015. -/
theorem timing_slots_counterexample :
    (((0 : Int) ≤ 46341 ∧ (0 : Int) < 1) ∧ in_int_range 46341 ∧ in_int_range 1) ∧
    tile_at ⟨46341, 46341⟩ ⟨1, 1⟩ ⟨3, 3⟩ (Int.tdiv 46341 1) ⟨0, 0, false⟩ 46340 46340
      ∈ tile_loop ⟨46341, 46341⟩ ⟨1, 1⟩ ⟨3, 3⟩ ⟨0, 0, false⟩ ∧
    (tile_at ⟨46341, 46341⟩ ⟨1, 1⟩ ⟨3, 3⟩ (Int.tdiv 46341 1) ⟨0, 0, false⟩ 46340 46340).i
      = 2147488280 ∧
    ¬ in_int_range 2147488280 ∧
    slot_int 46340 46340 (Int.tdiv 46341 1) = -2147479016 ∧
    ¬ (0 ≤ slot_int 46340 46340 (Int.tdiv 46341 1)) ∧
    slot_count_int (Int.tdiv 46341 1) (Int.tdiv 46341 1) = -2147479015 := by
  refine ⟨by decide, ?_, by decide, by decide, by decide, by decide, by decide⟩
  exact (mem_tile_loop ⟨46341, 46341⟩ ⟨1, 1⟩ ⟨3, 3⟩ ⟨0, 0, false⟩ _).mpr
    ⟨46340, 46340, by decide, by decide, rfl⟩

/-- C8, amended: for a non-negative buffer size and a positive tile size, all in
the range of `int`, with `M` and `N` the tile counts per dimension and `M * N`
in the range of `int`, every visited tile `(m, n)` is handed the slot
`i = n + m * N` with `0 <= i < M * N`; distinct tiles get distinct slots; the
loop visits `M * N` tiles; the tile visited at position `k` has slot `k`; the
slots in visiting order are `0, 1, ..., M * N - 1`, each used once; and the
`int` arithmetic of lines 149 and 143 leaves exactly these slots and the count
`M * N`. -/
theorem timing_slots (total_buffer mat_size fil_size : matrix_size_t) (uninit : IndexOut)
    (hR : 0 ≤ total_buffer.m) (hC : 0 ≤ total_buffer.n)
    (htr : 0 < mat_size.m) (htc : 0 < mat_size.n)
    (_hsizes : in_int_range total_buffer.m ∧ in_int_range total_buffer.n ∧
      in_int_range mat_size.m ∧ in_int_range mat_size.n)
    (hprod : in_int_range
      (Int.tdiv total_buffer.m mat_size.m * Int.tdiv total_buffer.n mat_size.n)) :
    let M := Int.tdiv total_buffer.m mat_size.m
    let N := Int.tdiv total_buffer.n mat_size.n
    let tiles := tile_loop total_buffer mat_size fil_size uninit
    (∀ t ∈ tiles, t.i = t.n + t.m * N ∧ 0 ≤ t.i ∧ t.i < M * N) ∧
    (∀ t1 ∈ tiles, ∀ t2 ∈ tiles, (t1.m, t1.n) ≠ (t2.m, t2.n) → t1.i ≠ t2.i) ∧
    tiles.length = (M * N).toNat ∧
    (∀ (k : Nat) (hk : k < tiles.length), (tiles.get ⟨k, hk⟩).i = (k : Int)) ∧
    tiles.map (fun t => t.i) = (List.range (M * N).toNat).map (fun k : Nat => (k : Int)) ∧
    (∀ t ∈ tiles, slot_int t.m t.n N = t.i) ∧
    slot_count_int M N = M * N := by
  intro M N tiles
  have hM : 0 ≤ M := Int.tdiv_nonneg hR (le_of_lt htr)
  have hN : 0 ≤ N := Int.tdiv_nonneg hC (le_of_lt htc)
  have hslots : tiles.map (fun t => t.i)
      = (List.range (M * N).toNat).map (fun k : Nat => (k : Int)) := by
    rw [← toNat_mul_toNat hM hN]
    exact tile_loop_slots total_buffer mat_size fil_size uninit
  have hlen : tiles.length = (M * N).toNat := by
    have h := congrArg List.length hslots
    simpa using h
  refine ⟨?_, ?_, hlen, ?_, hslots, ?_, wrap_int_of_in_range hprod⟩
  · intro t ht
    obtain ⟨m, n, ⟨hm0, hm⟩, ⟨hn0, hn⟩, rfl⟩ :=
      (mem_tile_loop total_buffer mat_size fil_size uninit t).mp ht
    exact ⟨rfl, slot_bounds hm0 hm hn0 hn⟩
  · intro t1 ht1 t2 ht2 hne heq
    obtain ⟨m1, n1, _, hn1, rfl⟩ :=
      (mem_tile_loop total_buffer mat_size fil_size uninit t1).mp ht1
    obtain ⟨m2, n2, _, hn2, rfl⟩ :=
      (mem_tile_loop total_buffer mat_size fil_size uninit t2).mp ht2
    obtain ⟨e1, e2⟩ := slot_injective hn1 hn2 heq
    apply hne
    simp [tile_at, e1, e2]
  · intro k hk
    exact tile_loop_slot_at total_buffer mat_size fil_size uninit k hk
  · intro t ht
    obtain ⟨m, n, ⟨hm0, hm⟩, ⟨hn0, hn⟩, rfl⟩ :=
      (mem_tile_loop total_buffer mat_size fil_size uninit t).mp ht
    have hb0 : 0 ≤ n + m * N := (slot_bounds hm0 hm hn0 hn).1
    have hb1 : n + m * N < M * N := (slot_bounds hm0 hm hn0 hn).2
    have hmN : 0 ≤ m * N := mul_nonneg hm0 hN
    have hmax : M * N ≤ INT_MAX := hprod.2
    have hmin : INT_MIN ≤ 0 := by decide
    have h1 : in_int_range (m * N) := ⟨le_trans hmin hmN, by omega⟩
    have h2 : in_int_range (n + m * N) := ⟨le_trans hmin hb0, by omega⟩
    show wrap_int (n + wrap_int (m * N)) = n + m * N
    rw [wrap_int_of_in_range h1, wrap_int_of_in_range h2]

/-- Witness for C8 (amended): a 6 x 6 buffer with 2 x 2 tiles has 9 tiles with
slots `0 .. 8` in visiting order. -/
theorem timing_slots_witness :
    (tile_loop ⟨6, 6⟩ ⟨2, 2⟩ ⟨3, 3⟩ ⟨0, 0, false⟩).length
        = (Int.tdiv 6 2 * Int.tdiv 6 2).toNat ∧
    (tile_loop ⟨6, 6⟩ ⟨2, 2⟩ ⟨3, 3⟩ ⟨0, 0, false⟩).map (fun t => t.i)
        = (List.range (Int.tdiv 6 2 * Int.tdiv 6 2).toNat).map (fun k : Nat => (k : Int)) ∧
    slot_count_int (Int.tdiv 6 2) (Int.tdiv 6 2) = Int.tdiv 6 2 * Int.tdiv 6 2 :=
  ⟨(timing_slots ⟨6, 6⟩ ⟨2, 2⟩ ⟨3, 3⟩ ⟨0, 0, false⟩
      (by decide) (by decide) (by decide) (by decide) (by decide) (by decide)).2.2.1,
   (timing_slots ⟨6, 6⟩ ⟨2, 2⟩ ⟨3, 3⟩ ⟨0, 0, false⟩
      (by decide) (by decide) (by decide) (by decide) (by decide) (by decide)).2.2.2.2.1,
   (timing_slots ⟨6, 6⟩ ⟨2, 2⟩ ⟨3, 3⟩ ⟨0, 0, false⟩
      (by decide) (by decide) (by decide) (by decide) (by decide) (by decide)).2.2.2.2.2.2⟩

/-- The tile `(m, n)` covers the output coordinate `(r, c)` exactly when `m` and
`n` are the quotients of `r` and `c` by the tile sizes. -/
theorem tile_at_covers_iff (total_buffer mat_size fil_size : matrix_size_t) (N : Int)
    (uninit : IndexOut) (htr : 0 < mat_size.m) (htc : 0 < mat_size.n) (m n r c : Int) :
    (tile_at total_buffer mat_size fil_size N uninit m n).covers mat_size r c ↔
      m = r / mat_size.m ∧ n = c / mat_size.n := by
  unfold TileCall.covers tile_at
  simp only
  rw [mem_block_iff htr, mem_block_iff htc]

/-- C7: for positive total and tile sizes, the output regions staged out by the
double loop of `main` are pairwise disjoint; an output coordinate `(r, c)` with
`r < R` and `c < C` lies in exactly one of them when `r < floor(R/tr) * tr` and
`c < floor(C/tc) * tc`, and in none of them otherwise; so when `R` is a multiple
of `tr` and `C` of `tc`, every coordinate of the buffer lies in exactly one
region. -/
theorem output_regions_partition (total_buffer mat_size fil_size : matrix_size_t)
    (uninit : IndexOut)
    (hR : 0 < total_buffer.m) (hC : 0 < total_buffer.n)
    (htr : 0 < mat_size.m) (htc : 0 < mat_size.n) :
    let tiles := tile_loop total_buffer mat_size fil_size uninit
    tiles.Pairwise (fun t1 t2 =>
      ∀ r c : Int, ¬ (t1.covers mat_size r c ∧ t2.covers mat_size r c)) ∧
    (∀ r c : Nat, (r : Int) < total_buffer.m → (c : Int) < total_buffer.n →
      (((r : Int) < total_buffer.m / mat_size.m * mat_size.m ∧
          (c : Int) < total_buffer.n / mat_size.n * mat_size.n) →
        ∃! t, t ∈ tiles ∧ t.covers mat_size r c) ∧
      (¬ ((r : Int) < total_buffer.m / mat_size.m * mat_size.m ∧
          (c : Int) < total_buffer.n / mat_size.n * mat_size.n) →
        ∀ t ∈ tiles, ¬ t.covers mat_size r c)) ∧
    (mat_size.m ∣ total_buffer.m → mat_size.n ∣ total_buffer.n →
      ∀ r c : Nat, (r : Int) < total_buffer.m → (c : Int) < total_buffer.n →
        ∃! t, t ∈ tiles ∧ t.covers mat_size r c) := by
  intro tiles
  have hM : Int.tdiv total_buffer.m mat_size.m = total_buffer.m / mat_size.m :=
    Int.tdiv_eq_ediv (le_of_lt hR) (le_of_lt htr)
  have hN : Int.tdiv total_buffer.n mat_size.n = total_buffer.n / mat_size.n :=
    Int.tdiv_eq_ediv (le_of_lt hC) (le_of_lt htc)
  have hmem := mem_tile_loop total_buffer mat_size fil_size uninit
  rw [hM, hN] at hmem
  have hcov := tile_at_covers_iff total_buffer mat_size fil_size
    (total_buffer.n / mat_size.n) uninit htr htc
  -- a covered coordinate lies in the tile of its quotients, and in no other
  have hone : ∀ r c : Nat,
      ((r : Int) < total_buffer.m / mat_size.m * mat_size.m ∧
        (c : Int) < total_buffer.n / mat_size.n * mat_size.n) →
      ∃! t, t ∈ tiles ∧ t.covers mat_size r c := by
    intro r c ⟨hr, hc⟩
    have hr0 : 0 ≤ (r : Int) / mat_size.m := Int.ediv_nonneg (by omega) (le_of_lt htr)
    have hc0 : 0 ≤ (c : Int) / mat_size.n := Int.ediv_nonneg (by omega) (le_of_lt htc)
    have hr1 := (Int.ediv_lt_iff_lt_mul htr).mpr hr
    have hc1 := (Int.ediv_lt_iff_lt_mul htc).mpr hc
    refine ⟨tile_at total_buffer mat_size fil_size (total_buffer.n / mat_size.n) uninit
      ((r : Int) / mat_size.m) ((c : Int) / mat_size.n), ⟨?_, ?_⟩, ?_⟩
    · exact (hmem _).mpr ⟨_, _, ⟨hr0, hr1⟩, ⟨hc0, hc1⟩, rfl⟩
    · exact (hcov _ _ _ _).mpr ⟨rfl, rfl⟩
    · rintro t ⟨ht, htc2⟩
      obtain ⟨m, n, _, _, rfl⟩ := (hmem t).mp ht
      obtain ⟨e1, e2⟩ := (hcov _ _ _ _).mp htc2
      rw [e1, e2]
  refine ⟨?_, ?_, ?_⟩
  · rw [List.pairwise_iff_getElem]
    intro k1 k2 hk1 hk2 hlt r c ⟨h1, h2⟩
    obtain ⟨m1, n1, _, hn1, e1⟩ := (hmem _).mp (List.getElem_mem hk1)
    obtain ⟨m2, n2, _, hn2, e2⟩ := (hmem _).mp (List.getElem_mem hk2)
    rw [e1] at h1
    rw [e2] at h2
    obtain ⟨a1, b1⟩ := (hcov _ _ _ _).mp h1
    obtain ⟨a2, b2⟩ := (hcov _ _ _ _).mp h2
    have hsame : tiles[k1] = tiles[k2] := by rw [e1, e2, a1, a2, b1, b2]
    have s1 := tile_loop_slot_at total_buffer mat_size fil_size uninit k1 hk1
    have s2 := tile_loop_slot_at total_buffer mat_size fil_size uninit k2 hk2
    simp only [List.get_eq_getElem] at s1 s2
    rw [hsame, s2] at s1
    omega
  · intro r c _ _
    refine ⟨hone r c, ?_⟩
    intro hnot t ht hcovers
    apply hnot
    obtain ⟨m, n, ⟨_, hm⟩, ⟨_, hn⟩, rfl⟩ := (hmem t).mp ht
    obtain ⟨e1, e2⟩ := (hcov _ _ _ _).mp hcovers
    rw [e1] at hm
    rw [e2] at hn
    exact ⟨(Int.ediv_lt_iff_lt_mul htr).mp hm, (Int.ediv_lt_iff_lt_mul htc).mp hn⟩
  · intro hdm hdn r c hr hc
    apply hone
    rw [Int.ediv_mul_cancel hdm, Int.ediv_mul_cancel hdn]
    exact ⟨hr, hc⟩


/-- Witness for C7: with a 5 x 6 buffer and 2 x 2 tiles the regions are pairwise
disjoint, the coordinate `(3, 5)` lies in exactly one region, and the coordinate
`(4, 0)` of the remainder row lies in none. -/
theorem output_regions_partition_witness :
    (tile_loop ⟨5, 6⟩ ⟨2, 2⟩ ⟨3, 3⟩ ⟨0, 0, false⟩).Pairwise (fun t1 t2 =>
      ∀ r c : Int, ¬ (t1.covers ⟨2, 2⟩ r c ∧ t2.covers ⟨2, 2⟩ r c)) ∧
    (∃! t, t ∈ tile_loop ⟨5, 6⟩ ⟨2, 2⟩ ⟨3, 3⟩ ⟨0, 0, false⟩ ∧
      t.covers ⟨2, 2⟩ ((3 : Nat) : Int) ((5 : Nat) : Int)) ∧
    (∀ t ∈ tile_loop ⟨5, 6⟩ ⟨2, 2⟩ ⟨3, 3⟩ ⟨0, 0, false⟩,
      ¬ t.covers ⟨2, 2⟩ ((4 : Nat) : Int) ((0 : Nat) : Int)) :=
  ⟨(output_regions_partition ⟨5, 6⟩ ⟨2, 2⟩ ⟨3, 3⟩ ⟨0, 0, false⟩
      (by decide) (by decide) (by decide) (by decide)).1,
   ((output_regions_partition ⟨5, 6⟩ ⟨2, 2⟩ ⟨3, 3⟩ ⟨0, 0, false⟩
      (by decide) (by decide) (by decide) (by decide)).2.1 3 5 (by decide) (by decide)).1
      (by decide),
   ((output_regions_partition ⟨5, 6⟩ ⟨2, 2⟩ ⟨3, 3⟩ ⟨0, 0, false⟩
      (by decide) (by decide) (by decide) (by decide)).2.1 4 0 (by decide) (by decide)).2
      (by decide)⟩

/-- The facts about one dimension of a visited tile: for a positive tile size
and a tile index `k` below the tile count, the offset `k * mat` is a
non-negative multiple of the tile size below total, the tile ends inside the
buffer, the single branch is entered only when the tile size equals total, and
the last branch only when the tile ends exactly at total, a multiple of the tile
size. -/
theorem visited_offset_facts {total mat k : Int} (htotal : 0 < total) (hmat : 0 < mat)
    (hk0 : 0 ≤ k) (hk : k < Int.tdiv total mat) :
    (mat ∣ k * mat ∧ 0 ≤ k * mat ∧ k * mat < total ∧ k * mat + mat ≤ total) ∧
    (compute_index_branch total mat (k * mat) = some .single → mat = total) ∧
    (compute_index_branch total mat (k * mat) = some .last →
      k * mat + mat = total ∧ mat ∣ total) := by
  rw [Int.tdiv_eq_ediv (le_of_lt htotal) (le_of_lt hmat)] at hk
  have h1 : (k + 1) * mat ≤ total := (Int.le_ediv_iff_mul_le hmat).mp (by omega)
  have e : (k + 1) * mat = k * mat + mat := by ring
  have h0 : 0 ≤ k * mat := mul_nonneg hk0 (le_of_lt hmat)
  refine ⟨⟨Dvd.intro_left k rfl, h0, by omega, by omega⟩, ?_, ?_⟩
  · intro hb
    have ht := compute_index_branch_test hb
    simp only [Branch.test, decide_eq_true_eq] at ht
    omega
  · intro hb
    have ht := compute_index_branch_test hb
    simp only [Branch.test, decide_eq_true_eq] at ht
    have heq : k * mat + mat = total := by omega
    exact ⟨heq, Dvd.intro_left (k + 1) (by rw [e, heq])⟩

/-- C10: for positive total and tile sizes, every tile `(m, n)` visited by the
double loop of `main` calls `compute_index` with the offsets
`host_offset_m = m * mat_size.m` and `host_offset_n = n * mat_size.n`; each is a
non-negative multiple of the tile size, below total, with offset + tile size at
most total.  Within the loop the single branch is entered only when the tile
size equals the total size of that dimension, and the last branch only when
offset + tile size equals total, which is then a multiple of the tile size. -/
theorem loop_calls_meet_precondition (total_buffer mat_size fil_size : matrix_size_t)
    (uninit : IndexOut)
    (hR : 0 < total_buffer.m) (hC : 0 < total_buffer.n)
    (htr : 0 < mat_size.m) (htc : 0 < mat_size.n) :
    ∀ t ∈ tile_loop total_buffer mat_size fil_size uninit,
      (t.host_offset_m = t.m * mat_size.m ∧ t.host_offset_n = t.n * mat_size.n) ∧
      (t.src_m = compute_index total_buffer.m mat_size.m fil_size.m t.host_offset_m uninit ∧
        t.src_n = compute_index total_buffer.n mat_size.n fil_size.n t.host_offset_n uninit) ∧
      (mat_size.m ∣ t.host_offset_m ∧ 0 ≤ t.host_offset_m ∧
        t.host_offset_m < total_buffer.m ∧ t.host_offset_m + mat_size.m ≤ total_buffer.m) ∧
      (mat_size.n ∣ t.host_offset_n ∧ 0 ≤ t.host_offset_n ∧
        t.host_offset_n < total_buffer.n ∧ t.host_offset_n + mat_size.n ≤ total_buffer.n) ∧
      (compute_index_branch total_buffer.m mat_size.m t.host_offset_m = some .single →
        mat_size.m = total_buffer.m) ∧
      (compute_index_branch total_buffer.n mat_size.n t.host_offset_n = some .single →
        mat_size.n = total_buffer.n) ∧
      (compute_index_branch total_buffer.m mat_size.m t.host_offset_m = some .last →
        t.host_offset_m + mat_size.m = total_buffer.m ∧ mat_size.m ∣ total_buffer.m) ∧
      (compute_index_branch total_buffer.n mat_size.n t.host_offset_n = some .last →
        t.host_offset_n + mat_size.n = total_buffer.n ∧ mat_size.n ∣ total_buffer.n) := by
  intro t ht
  obtain ⟨m, n, ⟨hm0, hm⟩, ⟨hn0, hn⟩, rfl⟩ :=
    (mem_tile_loop total_buffer mat_size fil_size uninit t).mp ht
  obtain ⟨am, bm, cm⟩ := visited_offset_facts hR htr hm0 hm
  obtain ⟨an, bn, cn⟩ := visited_offset_facts hC htc hn0 hn
  exact ⟨⟨rfl, rfl⟩, ⟨rfl, rfl⟩, am, an, bm, bn, cm, cn⟩


/-- Witness for C10: in a 6 x 6 buffer with 2 x 2 tiles the tile `(2, 1)` is
visited with offsets `(4, 2)`; its row call enters the last branch and ends
exactly at the buffer end, and its column offset is a multiple of the tile size
with the tile inside the buffer. -/
theorem loop_calls_meet_precondition_witness :
    (⟨2, 1, 7, 4, 2, ⟨3, 3, false⟩, ⟨4, 1, false⟩⟩ : TileCall)
        ∈ tile_loop ⟨6, 6⟩ ⟨2, 2⟩ ⟨3, 3⟩ ⟨0, 0, false⟩ ∧
    ((4 : Int) + 2 = 6 ∧ (2 : Int) ∣ 6) ∧
    ((2 : Int) ∣ 2 ∧ (0 : Int) ≤ 2 ∧ (2 : Int) < 6 ∧ (2 : Int) + 2 ≤ 6) :=
  ⟨by decide,
   (loop_calls_meet_precondition ⟨6, 6⟩ ⟨2, 2⟩ ⟨3, 3⟩ ⟨0, 0, false⟩
      (by decide) (by decide) (by decide) (by decide)
      ⟨2, 1, 7, 4, 2, ⟨3, 3, false⟩, ⟨4, 1, false⟩⟩ (by decide)).2.2.2.2.2.2.1 (by decide),
   (loop_calls_meet_precondition ⟨6, 6⟩ ⟨2, 2⟩ ⟨3, 3⟩ ⟨0, 0, false⟩
      (by decide) (by decide) (by decide) (by decide)
      ⟨2, 1, 7, 4, 2, ⟨3, 3, false⟩, ⟨4, 1, false⟩⟩ (by decide)).2.2.2.1⟩

/-- The run of `main` with its own sizes visits four tiles, with slots 0 to 3,
and each of the four read windows is 513 wide in both dimensions. -/
theorem main_visits_four_tiles :
    main ⟨0, 0, false⟩ =
      [⟨0, 0, 0, 0, 0, ⟨513, 0, true⟩, ⟨513, 0, true⟩⟩,
       ⟨0, 1, 1, 0, 512, ⟨513, 0, true⟩, ⟨513, 511, false⟩⟩,
       ⟨1, 0, 2, 512, 0, ⟨513, 511, false⟩, ⟨513, 0, true⟩⟩,
       ⟨1, 1, 3, 512, 512, ⟨513, 511, false⟩, ⟨513, 511, false⟩⟩] := by
  decide

end TiledConvolution
